import Mathlib

/-!
DistributedKV: the epoll front end of `include/Server.h`.

A shallow embedding of `Server::Server` and `Server::run`.

* Every system call, every call of the command processor and every log line the
  source issues is recorded, in program order, as an `Action`.
* The results of the system calls are inputs of the model (`CtorEnv`, `Env`,
  `WaitResult`): the model never chooses them.
* `Application` (from `application.h`) and the `LOG` sink (from `logger.h`) are
  not part of `Server.h`; the application is a parameter of the model and a log
  call is recorded as an action.
* `Kernel` is a small model of what the operating system does with the recorded
  calls (descriptor table and epoll interest list); it is used only to state the
  properties that speak about descriptors being open or registered.
* `Server.handleEventSig`, `Server.processEventsSig` and `Server.runOnceSig` add
  the one signal the calls of the loop can raise, `SIGPIPE` in `send`; they are
  used to state when the loop ends the process.
-/

namespace DistributedKV

/-! ## Constants of `Server.h` and of the system headers it uses -/

/-- Source: `#define MAX_EVENTS 8`. -/
def MAX_EVENTS : Nat := 8

/-- Source: `#define PORT 8888`. -/
def PORT : Nat := 8888

/-- Source: `#define BUFFER_SIZE 512`. -/
def BUFFER_SIZE : Nat := 512

/-- Source: `#define BACKLOG_SIZE 16`. -/
def BACKLOG_SIZE : Nat := 16

/-- Linux value of `AF_INET`. -/
def AF_INET : Nat := 2

/-- Linux value of `SOCK_STREAM`. -/
def SOCK_STREAM : Nat := 1

/-- Linux value of `IPPROTO_TCP`. -/
def IPPROTO_TCP : Nat := 6

/-- Linux value of `INADDR_ANY` (0.0.0.0). -/
def INADDR_ANY : Nat := 0

/-- Linux value of `EPOLLIN`. -/
def EPOLLIN : Nat := 1

/-- Linux value of `EPOLLET` (`1u << 31`). -/
def EPOLLET : Nat := 2147483648

/-- Value of `EXIT_FAILURE`. -/
def EXIT_FAILURE : Nat := 1

/-- The byte swap `htons` performs on a little-endian host, on 16-bit values. -/
def htons (x : Nat) : Nat := (x % 256) * 256 + (x / 256) % 256

/-- The byte swap `ntohs` performs on a little-endian host, on 16-bit values. -/
def ntohs (x : Nat) : Nat := (x % 256) * 256 + (x / 256) % 256

/-- Dotted-quad text of an `in_addr` whose `s_addr` is held in network byte order
on a little-endian host: the first octet is the least significant byte. -/
def inet_ntoa (a : Nat) : String :=
  toString (a % 256) ++ "." ++ toString (a / 256 % 256) ++ "." ++
    toString (a / 65536 % 256) ++ "." ++ toString (a / 16777216 % 256)

/-! ## Data -/

/-- The fields of `sockaddr_in` the source reads or writes. -/
structure SockAddr where
  sin_family : Nat
  sin_port : Nat
  sin_addr : Nat
  deriving DecidableEq, Repr

/-- Value-initialised `sockaddr_in` (the `{}` of the member declarations). -/
def SockAddr.zero : SockAddr := ⟨0, 0, 0⟩

/-- An `epoll_event`: the event mask and the `data.fd` member. -/
structure EpollEvent where
  events : Nat
  fd : Int
  deriving DecidableEq, Repr

/-- Severities of the log sink. -/
inductive LogLevel where
  | INFO
  | ERROR
  deriving DecidableEq, Repr

/-- One observable step of the server, in program order. The last argument of a
system call that returns a value the source looks at is that return value. -/
inductive Action where
  | initLogger (file : String)
  | newApplication
  | socket (domain type protocol : Nat) (ret : Int)
  | bind (fd : Int) (addr : SockAddr) (ret : Int)
  | listen (fd : Int) (backlog : Nat) (ret : Int)
  | epoll_create1 (flags : Nat) (ret : Int)
  | epoll_ctl_add (epfd fd : Int) (ev : EpollEvent) (ret : Int)
  | epoll_ctl_del (epfd fd : Int)
  | epoll_wait (epfd : Int) (maxevents : Nat) (timeout : Int) (ret : Int)
  | accept (fd : Int) (ret : Int)
  | recv (fd : Int) (len : Nat) (ret : Int)
  | getpeername (fd : Int)
  | close (fd : Int)
  | send (fd : Int) (bytes : List Nat) (len : Nat)
  | parseInstruction (payload : List Nat)
  | log (level : LogLevel) (msg : String)
  | cout (text : String)
  | cerr (text : String)
  | exit (code : Nat)
  deriving DecidableEq, Repr

/-- The command processor of `application.h`, which `Server.h` only calls:
its state and its one operation, from request bytes to response bytes. -/
structure Application (σ : Type) where
  init : σ
  ParseInstruction : σ → List Nat → σ × List Nat

/-- The data members of `class Server`. The array `events` is written only by
`epoll_wait` and read only by the loop that follows it, so it travels with the
result of the wait (`WaitResult`); `client_addr_len` is never read by the source. -/
structure Server (σ : Type) where
  port : Nat
  server_fd : Int
  epoll_fd : Int
  server_addr : SockAddr
  client_addr : SockAddr
  event : EpollEvent
  application : σ

/-- How a piece of the program ends: still running with a new state, or the
process has called `exit`. -/
inductive Outcome (σ : Type) where
  | running (s : Server σ)
  | exited (code : Nat)

/-- Results of the system calls of the constructor. -/
structure CtorEnv where
  socket_ret : Int
  bind_ret : Int
  listen_ret : Int
  epoll_create_ret : Int
  ctl_ret : Int
  deriving DecidableEq, Repr

/-- Results of the system calls made while one ready descriptor is handled.
* `accept_ret`, `accept_addr`: return value of `accept` and the peer address it
  stores in `client_addr` when it succeeds;
* `ctl_ret`: return value of `epoll_ctl(EPOLL_CTL_ADD)`;
* `recv_data`: `none` when `recv` fails with `-1`, otherwise the bytes the socket
  has for this call (none at all: the peer has closed);
* `beyond`: the bytes that lie in memory right after the array `buffer`;
* `peername`: what `getpeername` stores in `client_addr`, `none` when it fails. -/
structure Env where
  accept_ret : Int
  accept_addr : SockAddr
  ctl_ret : Int
  recv_data : Option (List Nat)
  beyond : List Nat
  peername : Option SockAddr
  deriving DecidableEq, Repr

/-- One entry `events[i]` of a batch together with the system-call results met
while it is handled. -/
structure Ready where
  ev : EpollEvent
  env : Env
  deriving DecidableEq, Repr

/-- The result of one `epoll_wait`: its return value and the entries it filled. -/
structure WaitResult where
  num_ready : Int
  events : List Ready
  deriving DecidableEq, Repr

/-! ## Helpers for the C idioms of the source -/

/-- The call `recv(fd, buffer, len, 0)`: return value and new content of `buffer`.
At most `len` of the available bytes are stored at the start of the buffer. -/
def recv (avail : Option (List Nat)) (buffer : List Nat) (len : Nat) : Int × List Nat :=
  match avail with
  | none => (-1, buffer)
  | some r => (((r.take len).length : Nat), r.take len ++ buffer.drop (r.take len).length)

/-- The bytes a `const char *` denotes: everything before the first zero byte. -/
def cstr (mem : List Nat) : List Nat := mem.takeWhile (fun b => b != 0)

/-- The text `inet_ntoa(client_addr.sin_addr) << ":" << ntohs(client_addr.sin_port)`. -/
def peerText (a : SockAddr) : String :=
  inet_ntoa a.sin_addr ++ ":" ++ toString (ntohs a.sin_port)

/-! ## `Server::Server` -/

/-- Source: `Server::Server(uint16_t port = PORT)`, lines 33-88. -/
def Server.ctor {σ : Type} (A : Application σ) (port : Nat) (env : CtorEnv) :
    List Action × Outcome σ :=
  let t0 : List Action := [.initLogger "server.log", .newApplication]
  let server_fd := env.socket_ret
  let t1 := t0 ++ [.socket AF_INET SOCK_STREAM IPPROTO_TCP server_fd]
  if server_fd = -1 then
    (t1 ++ [.cerr "Failed to create socket\n", .log .ERROR "Failed to create socket",
      .exit EXIT_FAILURE], .exited EXIT_FAILURE)
  else
    let server_addr : SockAddr :=
      { sin_family := AF_INET, sin_addr := INADDR_ANY, sin_port := htons PORT }
    let t2 := t1 ++ [.bind server_fd server_addr env.bind_ret]
    if env.bind_ret = -1 then
      (t2 ++ [.cerr "Failed to bind socket\n", .log .ERROR "Failed to bind socket",
        .exit EXIT_FAILURE], .exited EXIT_FAILURE)
    else
      let t3 := t2 ++ [.listen server_fd BACKLOG_SIZE env.listen_ret]
      if env.listen_ret = -1 then
        (t3 ++ [.cerr "Failed to listen on socket\n",
          .log .ERROR "Failed to listen on socket", .exit EXIT_FAILURE], .exited EXIT_FAILURE)
      else
        let epoll_fd := env.epoll_create_ret
        let t4 := t3 ++ [.epoll_create1 0 epoll_fd]
        if epoll_fd = -1 then
          (t4 ++ [.cerr "Failed to create epoll instance\n",
            .log .ERROR "Failed to create epoll instance", .exit EXIT_FAILURE],
            .exited EXIT_FAILURE)
        else
          let event : EpollEvent := { events := EPOLLIN ||| EPOLLET, fd := server_fd }
          let t5 := t4 ++ [.epoll_ctl_add epoll_fd server_fd event env.ctl_ret]
          if env.ctl_ret = -1 then
            (t5 ++ [.cerr "Failed to add server socket to epoll\n",
              .log .ERROR "Failed to add server socket to epoll", .exit EXIT_FAILURE],
              .exited EXIT_FAILURE)
          else
            let log := "Server started. Listening on port " ++ toString PORT
            (t5 ++ [.cout (log ++ "\n"), .log .INFO log],
              .running
                { port := port, server_fd := server_fd, epoll_fd := epoll_fd,
                  server_addr := server_addr, client_addr := SockAddr.zero,
                  event := event, application := A.init })

/-! ## `Server::run` -/

/-- Source: the body of the `for` loop of `Server::run`, lines 101-149, for the
entry `events[i] = r.ev`: the calls made, and the outcome reached when every call
returns. The signal the `send` of line 147 can raise is added by
`Server.handleEventSig`. -/
def Server.handleEvent {σ : Type} (A : Application σ) (s : Server σ) (r : Ready) :
    List Action × Outcome σ :=
  if r.ev.fd = s.server_fd then
    let client_fd := r.env.accept_ret
    if client_fd = -1 then
      ([.accept s.server_fd client_fd, .cerr "Failed to accept client connection\n",
        .log .ERROR "Failed to accept client connection"], .running s)
    else
      let s1 := { s with client_addr := r.env.accept_addr }
      let log := "New connection from " ++ peerText s1.client_addr
      let event : EpollEvent := { events := EPOLLIN ||| EPOLLET, fd := client_fd }
      let s2 := { s1 with event := event }
      let t : List Action :=
        [.accept s.server_fd client_fd, .cout (log ++ "\n"), .log .INFO log,
          .epoll_ctl_add s.epoll_fd client_fd event r.env.ctl_ret]
      if r.env.ctl_ret = -1 then
        (t ++ [.cerr "Failed to add client socket to epoll\n",
          .log .ERROR "Failed to add client socket to epoll", .exit EXIT_FAILURE],
          .exited EXIT_FAILURE)
      else
        (t, .running s2)
  else
    let client_fd := r.ev.fd
    let buffer0 : List Nat := List.replicate BUFFER_SIZE 0
    let got := recv r.env.recv_data buffer0 BUFFER_SIZE
    let bytes_received := got.1
    let buffer := got.2
    if bytes_received ≤ 0 then
      if bytes_received = 0 then
        let s1 : Server σ :=
          match r.env.peername with
          | some a => { s with client_addr := a }
          | none => s
        let log := "Client disconnected " ++ peerText s1.client_addr
        ([.recv client_fd BUFFER_SIZE bytes_received, .getpeername client_fd,
          .cout (log ++ "\n"), .log .INFO log,
          .close client_fd, .epoll_ctl_del s.epoll_fd client_fd], .running s1)
      else
        ([.recv client_fd BUFFER_SIZE bytes_received, .cerr "Error in recv\n",
          .log .ERROR "Error in recv",
          .close client_fd, .epoll_ctl_del s.epoll_fd client_fd], .running s)
    else
      let payload := cstr (buffer ++ r.env.beyond)
      let res := A.ParseInstruction s.application payload
      let response := res.2
      ([.recv client_fd BUFFER_SIZE bytes_received, .parseInstruction payload,
        .send client_fd response response.length],
        .running { s with application := res.1 })

/-- Source: the `for (int i = 0; i < num_ready; ++i)` loop of `Server::run`, over
the entries it visits; `exit` leaves the loop and the process. -/
def Server.processEvents {σ : Type} (A : Application σ) (s : Server σ) :
    List Ready → List Action × Outcome σ
  | [] => ([], .running s)
  | r :: rest =>
    match Server.handleEvent A s r with
    | (t, .running s1) =>
      ((t ++ (Server.processEvents A s1 rest).1), (Server.processEvents A s1 rest).2)
    | (t, .exited c) => (t, .exited c)

/-- Source: one pass of the `while (true)` body of `Server::run`, lines 92-150. -/
def Server.runOnce {σ : Type} (A : Application σ) (s : Server σ) (w : WaitResult) :
    List Action × Outcome σ :=
  let num_ready := w.num_ready
  if num_ready = -1 then
    ([.epoll_wait s.epoll_fd MAX_EVENTS (-1) num_ready, .cerr "Error in epoll_wait\n",
      .log .ERROR "Error in epoll_wait", .exit EXIT_FAILURE], .exited EXIT_FAILURE)
  else
    let res := Server.processEvents A s (w.events.take num_ready.toNat)
    (.epoll_wait s.epoll_fd MAX_EVENTS (-1) num_ready :: res.1, res.2)

/-- Source: `Server::run`, the `while (true)` loop, driven by the results of the
successive `epoll_wait` calls; the loop has no other way out than `exit`. -/
def Server.run {σ : Type} (A : Application σ) (s : Server σ) :
    List WaitResult → List Action × Outcome σ
  | [] => ([], .running s)
  | w :: rest =>
    match Server.runOnce A s w with
    | (t, .running s1) => ((t ++ (Server.run A s1 rest).1), (Server.run A s1 rest).2)
    | (t, .exited c) => (t, .exited c)

/-- The value of `bytes_received` when the entry is handled as a client event. -/
def Ready.bytes_received (r : Ready) : Int :=
  (recv r.env.recv_data (List.replicate BUFFER_SIZE 0) BUFFER_SIZE).1

/-- The bytes `ParseInstruction(buffer)` is given when the entry is handled as a
client event: the C string that starts at `buffer` after the read. -/
def Ready.payload (r : Ready) : List Nat :=
  cstr ((recv r.env.recv_data (List.replicate BUFFER_SIZE 0) BUFFER_SIZE).2 ++ r.env.beyond)

/-- The bytes the read stored: the first `bytes_received` bytes of `buffer`. -/
def Ready.request (r : Ready) : List Nat :=
  (recv r.env.recv_data (List.replicate BUFFER_SIZE 0) BUFFER_SIZE).2.take
    r.bytes_received.toNat

/-! ## Reading a trace -/

/-- True when the process has called `exit`. -/
def Outcome.isExited {σ : Type} : Outcome σ → Bool
  | .running _ => false
  | .exited _ => true

/-- The request payloads handed to `Application::ParseInstruction`, in order. -/
def payloads : List Action → List (List Nat)
  | [] => []
  | .parseInstruction p :: t => p :: payloads t
  | _ :: t => payloads t

/-- The `send` calls of a trace: descriptor and the `len` bytes handed over. -/
def sends : List Action → List (Int × List Nat)
  | [] => []
  | .send fd bytes len :: t => (fd, bytes.take len) :: sends t
  | _ :: t => sends t

/-- The return values of all `accept` calls of a trace, failed ones included. -/
def acceptCalls : List Action → List Int
  | [] => []
  | .accept _ ret :: t => ret :: acceptCalls t
  | _ :: t => acceptCalls t

/-- The descriptors `epoll_ctl(EPOLL_CTL_ADD)` was called for, with the mask. -/
def addCalls : List Action → List (Int × Nat)
  | [] => []
  | .epoll_ctl_add _ fd ev _ :: t => (fd, ev.events) :: addCalls t
  | _ :: t => addCalls t

/-- The `close` and `EPOLL_CTL_DEL` calls of a trace, in order. -/
def teardownCalls : List Action → List Action
  | [] => []
  | .close fd :: t => .close fd :: teardownCalls t
  | .epoll_ctl_del ep fd :: t => .epoll_ctl_del ep fd :: teardownCalls t
  | _ :: t => teardownCalls t

/-- The addresses handed to `bind`, in order. -/
def bindCalls : List Action → List SockAddr
  | [] => []
  | .bind _ addr _ :: t => addr :: bindCalls t
  | _ :: t => bindCalls t

/-- The entries handed to the log sink, in order. -/
def logs : List Action → List (LogLevel × String)
  | [] => []
  | .log l m :: t => (l, m) :: logs t
  | _ :: t => logs t

/-- Connections still waiting in the listen queue after a trace, when `k` were
waiting before it and none arrived meanwhile: each `accept` that succeeds takes one. -/
def pendingAfter (k : Nat) (t : List Action) : Nat :=
  k - ((acceptCalls t).filter (fun r => r != -1)).length

/-! ## The operating system's side: the signal a `send` can raise

`Server.handleEvent` gives the calls made and the state reached when every call
returns. Line 147 calls `send` with flags `0`, so without `MSG_NOSIGNAL`, and
`Server.h` neither ignores nor handles `SIGPIPE`: a `send` on a connection the peer
has reset raises `SIGPIPE`, whose default action ends the process. The definitions
below add that to the loop; whether the `send` made for an entry meets a reset
connection is an input, paired with the entry. -/

/-- Linux value of `SIGPIPE`. -/
def SIGPIPE : Nat := 13

/-- How the process stands after a piece of the program, signals included: still
running, ended by its own call of `exit`, or ended by a signal. -/
inductive Fate (σ : Type) where
  | running (s : Server σ)
  | exited (code : Nat)
  | killed (signal : Nat)

/-- The outcome of the calls, when no signal was raised. -/
def Outcome.toFate {σ : Type} : Outcome σ → Fate σ
  | .running s => .running s
  | .exited c => .exited c

/-- The signal that ended the process, when one did. -/
def Fate.signal {σ : Type} : Fate σ → Option Nat
  | .killed g => some g
  | _ => none

/-- Source: the body of the `for` loop, lines 101-149, with the signal of line 147:
the calls are those of `Server.handleEvent`; when they include a `send` and the
connection has been reset (`pipe`), `SIGPIPE` ends the process in that `send`. -/
def Server.handleEventSig {σ : Type} (A : Application σ) (s : Server σ) (r : Ready)
    (pipe : Bool) : List Action × Fate σ :=
  if pipe && !(sends (Server.handleEvent A s r).1).isEmpty then
    ((Server.handleEvent A s r).1, .killed SIGPIPE)
  else
    ((Server.handleEvent A s r).1, (Server.handleEvent A s r).2.toFate)

/-- Source: the `for` loop of `Server::run`, signals included: `exit` and a fatal
signal both leave the loop and the process. -/
def Server.processEventsSig {σ : Type} (A : Application σ) (s : Server σ) :
    List (Ready × Bool) → List Action × Fate σ
  | [] => ([], .running s)
  | e :: rest =>
    match Server.handleEventSig A s e.1 e.2 with
    | (t, .running s1) =>
      ((t ++ (Server.processEventsSig A s1 rest).1), (Server.processEventsSig A s1 rest).2)
    | (t, .exited c) => (t, .exited c)
    | (t, .killed g) => (t, .killed g)

/-- What the kernel knows of the process: the descriptors the server has open and
the interest list of its epoll instance (descriptor and event mask). -/
structure Kernel where
  openFds : List Int
  interest : List (Int × Nat)
  deriving DecidableEq, Repr

/-- A process that has opened nothing yet. -/
def Kernel.empty : Kernel := ⟨[], []⟩

/-- Effect of one recorded call on the kernel state, after close(2) and
epoll_ctl(2): a call that creates a descriptor adds it when it succeeds;
`EPOLL_CTL_ADD` that returns 0 adds an entry; `close` removes the descriptor and,
as the server never duplicates a descriptor, its entry in the interest list;
`EPOLL_CTL_DEL` removes the entry of an open descriptor and fails with `EBADF`,
changing nothing, on a closed one. -/
def Kernel.apply (k : Kernel) : Action → Kernel
  | .socket _ _ _ ret => if ret = -1 then k else { k with openFds := ret :: k.openFds }
  | .epoll_create1 _ ret => if ret = -1 then k else { k with openFds := ret :: k.openFds }
  | .accept _ ret => if ret = -1 then k else { k with openFds := ret :: k.openFds }
  | .epoll_ctl_add _ fd ev ret =>
    if ret = 0 then { k with interest := (fd, ev.events) :: k.interest } else k
  | .epoll_ctl_del _ fd =>
    if fd ∈ k.openFds then { k with interest := k.interest.filter (fun p => p.1 != fd) }
    else k
  | .close fd =>
    { openFds := k.openFds.filter (fun d => d != fd),
      interest := k.interest.filter (fun p => p.1 != fd) }
  | _ => k

/-- Kernel state after a whole trace. -/
def Kernel.run (k : Kernel) (t : List Action) : Kernel := t.foldl Kernel.apply k

/-- Whether the kernel can have produced the result recorded in a call: a call
that creates a descriptor returns `-1` or a non-negative descriptor that is not
open at that moment; `EPOLL_CTL_ADD` returns `0` or `-1`. -/
def Kernel.admits (k : Kernel) : Action → Bool
  | .socket _ _ _ ret => ret == -1 || (decide (0 ≤ ret) && !(k.openFds.contains ret))
  | .epoll_create1 _ ret => ret == -1 || (decide (0 ≤ ret) && !(k.openFds.contains ret))
  | .accept _ ret => ret == -1 || (decide (0 ≤ ret) && !(k.openFds.contains ret))
  | .epoll_ctl_add _ _ _ ret => ret == 0 || ret == -1
  | _ => true

/-- Whether the kernel can have produced every result recorded in a trace. -/
def Kernel.admitsAll (k : Kernel) : List Action → Bool
  | [] => true
  | a :: t => k.admits a && (k.apply a).admitsAll t

/-- True when the descriptor has an entry in the interest list. -/
def Kernel.registered (k : Kernel) (fd : Int) : Bool := (k.interest.map Prod.fst).contains fd

/-- True when the descriptor is open. -/
def Kernel.isOpen (k : Kernel) (fd : Int) : Bool := k.openFds.contains fd

/-! ## Properties of kernel states and traces used in the statements -/

/-- The property of the kernel state that every pass of the loop keeps: the acceptor
has its edge-triggered read entry, no descriptor has two entries, and every
descriptor with an entry is open. -/
def KInv (k : Kernel) (sfd : Int) : Prop :=
  (sfd, EPOLLIN ||| EPOLLET) ∈ k.interest ∧
  (k.interest.map Prod.fst).Nodup ∧
  ∀ p ∈ k.interest, p.1 ∈ k.openFds

/-- Every `EPOLL_CTL_ADD` of the trace comes right after the `accept` that returned
the descriptor, with only the connection message written in between. -/
def AddsFollowAccept (t : List Action) : Prop :=
  ∀ (pre post : List Action) (ep fd : Int) (ev : EpollEvent) (ret : Int),
    t = pre ++ .epoll_ctl_add ep fd ev ret :: post →
    ∃ (pre0 : List Action) (sfd : Int) (m1 m2 : String),
      pre = pre0 ++ [.accept sfd fd, .cout m1, .log .INFO m2]

/-- True for the calls that add an entry to the interest list. -/
def Action.isAdd : Action → Bool
  | .epoll_ctl_add _ _ _ _ => true
  | _ => false

/-- The descriptor a call closes or asks to remove from the interest list. -/
def Action.teardownOf : Action → Option Int
  | .close fd => some fd
  | .epoll_ctl_del _ fd => some fd
  | _ => none

/-! ## Concrete inputs used for evaluation -/

/-- A small command processor: it counts its calls and answers `OK` followed by
the request it was given. -/
def demoApp : Application Nat :=
  { init := 0, ParseInstruction := fun n p => (n + 1, 79 :: 75 :: p) }

/-- System-call results of a start-up in which every call succeeds: the socket is
descriptor 3 and the epoll instance descriptor 4. -/
def ctorOk : CtorEnv :=
  { socket_ret := 3, bind_ret := 0, listen_ret := 0, epoll_create_ret := 4, ctl_ret := 0 }

/-- The server a successful start-up on descriptors 3 and 4 leaves behind. -/
def demoServer : Server Nat :=
  { port := PORT, server_fd := 3, epoll_fd := 4,
    server_addr := { sin_family := AF_INET, sin_addr := INADDR_ANY, sin_port := htons PORT },
    client_addr := SockAddr.zero,
    event := { events := EPOLLIN ||| EPOLLET, fd := 3 },
    application := 0 }

/-- Peer 127.0.0.1, port 4660. -/
def demoPeer : SockAddr := { sin_family := AF_INET, sin_port := 13330, sin_addr := 16777343 }

/-- Results for an event on the acceptor: `accept` returns `fd`, registration succeeds. -/
def acceptEnv (fd : Int) : Env :=
  { accept_ret := fd, accept_addr := demoPeer, ctl_ret := 0, recv_data := none,
    beyond := [], peername := none }

/-- Results for an event on a client: `recv` delivers `data`. -/
def dataEnv (data : List Nat) : Env :=
  { accept_ret := -1, accept_addr := SockAddr.zero, ctl_ret := -1, recv_data := some data,
    beyond := [], peername := some demoPeer }

/-- Results for an event on a client whose `recv` fails. -/
def errEnv : Env :=
  { accept_ret := -1, accept_addr := SockAddr.zero, ctl_ret := -1, recv_data := none,
    beyond := [], peername := none }

/-- A ready entry for descriptor `fd` with the given results. -/
def ready (fd : Int) (env : Env) : Ready := { ev := { events := EPOLLIN, fd := fd }, env := env }


/-! ## Shared lemmas -/

theorem cstr_append_zero (r x : List Nat) : cstr (r ++ 0 :: x) = cstr r := by
  induction r with
  | nil => simp [cstr]
  | cons b r ih =>
    by_cases hb : b = 0
    · subst hb; simp [cstr]
    · simp only [cstr, List.cons_append] at ih ⊢
      rw [List.takeWhile_cons, List.takeWhile_cons]
      simp [hb, ih]

theorem cstr_append_of_mem (r x : List Nat) (h : 0 ∈ r) : cstr (r ++ x) = cstr r := by
  obtain ⟨a, b, rfl⟩ := List.append_of_mem h
  rw [List.append_assoc, List.cons_append, cstr_append_zero, cstr_append_zero]

theorem cstr_of_not_mem (r : List Nat) (h : 0 ∉ r) : cstr r = r := by
  induction r with
  | nil => rfl
  | cons b r ih =>
    have hb : b ≠ 0 := fun e => h (by simp [e])
    have hr : 0 ∉ r := fun e => h (by simp [e])
    simp only [cstr] at ih ⊢
    rw [List.takeWhile_cons]
    simp [hb, ih hr]

theorem recv_fits (r buffer : List Nat) (len : Nat) (h : r.length ≤ len) :
    recv (some r) buffer len = ((r.length : Int), r ++ buffer.drop r.length) := by
  simp [recv, List.take_of_length_le h]

/-- What is in `buffer` and beyond it, as a C string, after a read of `r` into the
zero-filled array, when `r` leaves room for a terminator or brings its own. -/
theorem cstr_buffer (r beyond : List Nat) (h : r.length < BUFFER_SIZE ∨ 0 ∈ r) :
    cstr ((r ++ (List.replicate BUFFER_SIZE 0).drop r.length) ++ beyond) = cstr r := by
  rcases h with h | h
  · have : (List.replicate BUFFER_SIZE 0).drop r.length
        = 0 :: List.replicate (BUFFER_SIZE - r.length - 1) 0 := by
      rw [List.drop_replicate]
      have : BUFFER_SIZE - r.length = (BUFFER_SIZE - r.length - 1) + 1 := by omega
      rw [this, List.replicate_succ]; simp
    rw [this, List.append_assoc, List.cons_append, cstr_append_zero]
  · rw [List.append_assoc, cstr_append_of_mem _ _ h]

/-- The data-ready branch, for a read that returns the `r.length > 0` bytes of `r`. -/
theorem handleEvent_data {σ : Type} (A : Application σ) (s : Server σ) (r : Ready)
    (data : List Nat) (hfd : r.ev.fd ≠ s.server_fd) (hd : r.env.recv_data = some data)
    (hpos : 0 < data.length) (hle : data.length ≤ BUFFER_SIZE) :
    Server.handleEvent A s r =
      ([.recv r.ev.fd BUFFER_SIZE data.length,
        .parseInstruction
          (cstr ((data ++ (List.replicate BUFFER_SIZE 0).drop data.length) ++ r.env.beyond)),
        .send r.ev.fd
          (A.ParseInstruction s.application
            (cstr ((data ++ (List.replicate BUFFER_SIZE 0).drop data.length)
              ++ r.env.beyond))).2
          (A.ParseInstruction s.application
            (cstr ((data ++ (List.replicate BUFFER_SIZE 0).drop data.length)
              ++ r.env.beyond))).2.length],
       .running { s with application :=
          (A.ParseInstruction s.application
            (cstr ((data ++ (List.replicate BUFFER_SIZE 0).drop data.length)
              ++ r.env.beyond))).1 }) := by
  have hn : ¬ ((data.length : Int) ≤ 0) := by omega
  simp only [Server.handleEvent, if_neg hfd, hd, recv_fits _ _ _ hle, if_neg hn]

/-- The data-ready branch, whenever the read returns a positive count. -/
theorem handleEvent_pos {σ : Type} (A : Application σ) (s : Server σ) (r : Ready)
    (hfd : r.ev.fd ≠ s.server_fd) (hpos : 0 < r.bytes_received) :
    Server.handleEvent A s r =
      ([.recv r.ev.fd BUFFER_SIZE r.bytes_received, .parseInstruction r.payload,
        .send r.ev.fd (A.ParseInstruction s.application r.payload).2
          (A.ParseInstruction s.application r.payload).2.length],
       .running { s with application := (A.ParseInstruction s.application r.payload).1 }) := by
  have hn : ¬ (r.bytes_received ≤ 0) := by omega
  unfold Ready.bytes_received at hn
  simp only [Server.handleEvent, if_neg hfd, if_neg hn, Ready.bytes_received, Ready.payload]

/-- The teardown branch: the read returned zero or failed. -/
theorem handleEvent_nonpos {σ : Type} (A : Application σ) (s : Server σ) (r : Ready)
    (hfd : r.ev.fd ≠ s.server_fd) (hle : r.bytes_received ≤ 0) :
    Server.handleEvent A s r =
      if r.bytes_received = 0 then
        ([.recv r.ev.fd BUFFER_SIZE r.bytes_received, .getpeername r.ev.fd,
          .cout ("Client disconnected " ++
            peerText (match r.env.peername with | some a => a | none => s.client_addr) ++ "\n"),
          .log .INFO ("Client disconnected " ++
            peerText (match r.env.peername with | some a => a | none => s.client_addr)),
          .close r.ev.fd, .epoll_ctl_del s.epoll_fd r.ev.fd],
         .running (match r.env.peername with
            | some a => { s with client_addr := a }
            | none => s))
      else
        ([.recv r.ev.fd BUFFER_SIZE r.bytes_received, .cerr "Error in recv\n",
          .log .ERROR "Error in recv", .close r.ev.fd, .epoll_ctl_del s.epoll_fd r.ev.fd],
         .running s) := by
  unfold Ready.bytes_received at hle ⊢
  simp only [Server.handleEvent, if_neg hfd, if_pos hle]
  split
  · cases r.env.peername <;> rfl
  · rfl

/-- The new-connection branch. -/
theorem handleEvent_acceptor {σ : Type} (A : Application σ) (s : Server σ) (r : Ready)
    (hfd : r.ev.fd = s.server_fd) :
    Server.handleEvent A s r =
      if r.env.accept_ret = -1 then
        ([.accept s.server_fd r.env.accept_ret, .cerr "Failed to accept client connection\n",
          .log .ERROR "Failed to accept client connection"], .running s)
      else if r.env.ctl_ret = -1 then
        ([.accept s.server_fd r.env.accept_ret,
          .cout ("New connection from " ++ peerText r.env.accept_addr ++ "\n"),
          .log .INFO ("New connection from " ++ peerText r.env.accept_addr),
          .epoll_ctl_add s.epoll_fd r.env.accept_ret
            { events := EPOLLIN ||| EPOLLET, fd := r.env.accept_ret } r.env.ctl_ret,
          .cerr "Failed to add client socket to epoll\n",
          .log .ERROR "Failed to add client socket to epoll", .exit EXIT_FAILURE],
          .exited EXIT_FAILURE)
      else
        ([.accept s.server_fd r.env.accept_ret,
          .cout ("New connection from " ++ peerText r.env.accept_addr ++ "\n"),
          .log .INFO ("New connection from " ++ peerText r.env.accept_addr),
          .epoll_ctl_add s.epoll_fd r.env.accept_ret
            { events := EPOLLIN ||| EPOLLET, fd := r.env.accept_ret } r.env.ctl_ret],
          .running { s with client_addr := r.env.accept_addr,
                            event := { events := EPOLLIN ||| EPOLLET, fd := r.env.accept_ret } })
      := by
  simp only [Server.handleEvent, if_pos hfd]
  split
  · rfl
  · split <;> rfl

/-- Handling an entry never changes the two descriptors the server holds. -/
theorem handleEvent_fds {σ : Type} (A : Application σ) (s s1 : Server σ) (r : Ready)
    (t : List Action) (h : Server.handleEvent A s r = (t, .running s1)) :
    s1.server_fd = s.server_fd ∧ s1.epoll_fd = s.epoll_fd := by
  by_cases hfd : r.ev.fd = s.server_fd
  · rw [handleEvent_acceptor A s r hfd] at h
    split at h
    · cases h; exact ⟨rfl, rfl⟩
    · split at h
      · cases h
      · cases h; exact ⟨rfl, rfl⟩
  · by_cases hp : 0 < r.bytes_received
    · rw [handleEvent_pos A s r hfd hp] at h
      cases h; exact ⟨rfl, rfl⟩
    · rw [handleEvent_nonpos A s r hfd (by omega)] at h
      split at h
      · cases h; cases r.env.peername <;> exact ⟨rfl, rfl⟩
      · cases h; exact ⟨rfl, rfl⟩

theorem processEvents_cons_running {σ : Type} (A : Application σ) (s s1 : Server σ)
    (r : Ready) (rest : List Ready) (t : List Action)
    (h : Server.handleEvent A s r = (t, .running s1)) :
    Server.processEvents A s (r :: rest) =
      (t ++ (Server.processEvents A s1 rest).1, (Server.processEvents A s1 rest).2) := by
  simp only [Server.processEvents, h]

theorem processEvents_cons_exited {σ : Type} (A : Application σ) (s : Server σ)
    (r : Ready) (rest : List Ready) (t : List Action) (c : Nat)
    (h : Server.handleEvent A s r = (t, .exited c)) :
    Server.processEvents A s (r :: rest) = (t, .exited c) := by
  simp only [Server.processEvents, h]

/-- The loop goes on with the rest of the batch after the entries that did not exit. -/
theorem processEvents_append {σ : Type} (A : Application σ) (pre rest : List Ready) :
    ∀ (s s1 : Server σ) (t : List Action),
      Server.processEvents A s pre = (t, .running s1) →
      Server.processEvents A s (pre ++ rest) =
        (t ++ (Server.processEvents A s1 rest).1, (Server.processEvents A s1 rest).2) := by
  induction pre with
  | nil =>
    intro s s1 t h
    simp only [Server.processEvents] at h
    cases h; simp
  | cons r pre ih =>
    intro s s1 t h
    rcases hh : Server.handleEvent A s r with ⟨t0, o⟩
    cases o with
    | exited c => rw [processEvents_cons_exited A s r pre t0 c hh] at h; cases h
    | running s0 =>
      rw [processEvents_cons_running A s s0 r pre t0 hh] at h
      rcases hp : Server.processEvents A s0 pre with ⟨tp, op⟩
      rw [hp] at h
      cases h
      rw [List.cons_append, processEvents_cons_running A s s0 r (pre ++ rest) t0 hh,
        ih s0 s1 tp hp, List.append_assoc]

/-- The descriptors the server holds are the same after any part of a batch. -/
theorem processEvents_fds {σ : Type} (A : Application σ) (l : List Ready) :
    ∀ (s s1 : Server σ) (t : List Action),
      Server.processEvents A s l = (t, .running s1) →
      s1.server_fd = s.server_fd ∧ s1.epoll_fd = s.epoll_fd := by
  induction l with
  | nil =>
    intro s s1 t h
    simp only [Server.processEvents] at h
    cases h; exact ⟨rfl, rfl⟩
  | cons r l ih =>
    intro s s1 t h
    rcases hh : Server.handleEvent A s r with ⟨t0, o⟩
    cases o with
    | exited c => rw [processEvents_cons_exited A s r l t0 c hh] at h; cases h
    | running s0 =>
      rw [processEvents_cons_running A s s0 r l t0 hh] at h
      rcases hp : Server.processEvents A s0 l with ⟨tp, op⟩
      rw [hp] at h
      cases h
      have h1 := handleEvent_fds A s s0 r t0 hh
      have h2 := ih s0 s1 tp hp
      exact ⟨h2.1.trans h1.1, h2.2.trans h1.2⟩

theorem runOnce_single {σ : Type} (A : Application σ) (s s1 : Server σ) (w : WaitResult)
    (r : Ready) (t : List Action) (hn : w.num_ready = 1) (he : w.events = [r])
    (h : Server.handleEvent A s r = (t, .running s1)) :
    Server.runOnce A s w =
      (.epoll_wait s.epoll_fd MAX_EVENTS (-1) 1 :: t, .running s1) := by
  simp [Server.runOnce, hn, he, Server.processEvents, h]

theorem run_cons_running {σ : Type} (A : Application σ) (s s1 : Server σ) (w : WaitResult)
    (rest : List WaitResult) (t : List Action)
    (h : Server.runOnce A s w = (t, .running s1)) :
    Server.run A s (w :: rest) =
      (t ++ (Server.run A s1 rest).1, (Server.run A s1 rest).2) := by
  simp only [Server.run, h]

theorem run_cons_exited {σ : Type} (A : Application σ) (s : Server σ) (w : WaitResult)
    (rest : List WaitResult) (t : List Action) (c : Nat)
    (h : Server.runOnce A s w = (t, .exited c)) :
    Server.run A s (w :: rest) = (t, .exited c) := by
  simp only [Server.run, h]

/-! ## C1: what the data-ready branch hands to the command processor -/

/-- C1, as stated, fails: the three bytes `A`, NUL, `B` arrive in one read on client
descriptor 5; the command processor is given the single byte `A`, not the three
bytes read, and the bytes sent are its answer to `A`, not to the request read. -/
theorem C1_counterexample_zero_byte :
    0 < [65, 0, 66].length ∧ [65, 0, 66].length ≤ BUFFER_SIZE ∧
    payloads (Server.handleEvent demoApp demoServer (ready 5 (dataEnv [65, 0, 66]))).1
      = [[65]] ∧
    payloads (Server.handleEvent demoApp demoServer (ready 5 (dataEnv [65, 0, 66]))).1
      ≠ [[65, 0, 66]] ∧
    sends (Server.handleEvent demoApp demoServer (ready 5 (dataEnv [65, 0, 66]))).1
      ≠ [(5, (demoApp.ParseInstruction demoServer.application [65, 0, 66]).2)] := by
  decide

/-- C1, amended: for every request `data` with `0 < |data| ≤ BUFFER_SIZE` that one
`recv` delivers on a client descriptor, and that is shorter than `BUFFER_SIZE` or
contains a zero byte, the data-ready branch passes to `ParseInstruction` the bytes
of `data` before its first zero byte (all of `data` when it has none), and calls
`send` once, on the same descriptor, with the whole response to that payload. -/
theorem C1_payload_is_c_string {σ : Type} (A : Application σ) (s : Server σ) (r : Ready)
    (data : List Nat) (hfd : r.ev.fd ≠ s.server_fd) (hd : r.env.recv_data = some data)
    (hpos : 0 < data.length) (hle : data.length ≤ BUFFER_SIZE)
    (hterm : data.length < BUFFER_SIZE ∨ 0 ∈ data) :
    (Server.handleEvent A s r).1 =
      [.recv r.ev.fd BUFFER_SIZE data.length,
       .parseInstruction (data.takeWhile (fun b => b != 0)),
       .send r.ev.fd (A.ParseInstruction s.application (data.takeWhile (fun b => b != 0))).2
         (A.ParseInstruction s.application (data.takeWhile (fun b => b != 0))).2.length] ∧
    (0 ∉ data → data.takeWhile (fun b => b != 0) = data) := by
  constructor
  · rw [handleEvent_data A s r data hfd hd hpos hle, cstr_buffer data r.env.beyond hterm]
    rfl
  · intro h0
    exact cstr_of_not_mem data h0

/-- C1, amended, at a concrete input: `SET` read on client descriptor 5. -/
theorem C1_payload_is_c_string_witness :
    (Server.handleEvent demoApp demoServer (ready 5 (dataEnv [83, 69, 84]))).1 =
      [.recv 5 BUFFER_SIZE 3, .parseInstruction [83, 69, 84],
       .send 5 [79, 75, 83, 69, 84] 5] :=
  (C1_payload_is_c_string demoApp demoServer (ready 5 (dataEnv [83, 69, 84])) [83, 69, 84]
    (by decide) rfl (by decide) (by decide) (Or.inl (by decide))).1

/-! ## C10: a read never sees bytes of an earlier read -/

/-- C10: a request `a` of exactly `BUFFER_SIZE` bytes is read on a client descriptor
in one pass of the loop and a shorter request `b` without zero byte is read on the
same descriptor in the next pass; the payload `ParseInstruction` is given for `b`
is exactly `b`, whatever `a` was: the buffer of each event starts zero-filled. -/
theorem C10_no_stale_bytes {σ : Type} (A : Application σ) (s : Server σ) (fd : Int)
    (m1 m2 : Nat) (envA envB : Env) (a b : List Nat)
    (hfd : fd ≠ s.server_fd)
    (ha : envA.recv_data = some a) (hla : a.length = BUFFER_SIZE)
    (hb : envB.recv_data = some b) (hpos : 0 < b.length) (hlt : b.length < BUFFER_SIZE)
    (hz : 0 ∉ b) :
    payloads (Server.run A s
        [ { num_ready := 1, events := [ { ev := { events := m1, fd := fd }, env := envA } ] },
          { num_ready := 1, events := [ { ev := { events := m2, fd := fd }, env := envB } ] } ]).1
      = [cstr (a ++ envA.beyond), b] := by
  have hA := handleEvent_data A s { ev := { events := m1, fd := fd }, env := envA } a
    hfd ha (by rw [hla]; decide) (le_of_eq hla)
  have hdrop : (List.replicate BUFFER_SIZE 0).drop a.length = [] := by
    rw [hla]; simp
  rw [hdrop, List.append_nil] at hA
  have hB := handleEvent_data A
    { s with application := (A.ParseInstruction s.application (cstr (a ++ envA.beyond))).1 }
    { ev := { events := m2, fd := fd }, env := envB } b hfd hb hpos (le_of_lt hlt)
  rw [cstr_buffer b envB.beyond (Or.inl hlt), cstr_of_not_mem b hz] at hB
  rw [run_cons_running A s _ _ _ _ (runOnce_single A s _ _ _ _ rfl rfl hA),
    run_cons_running A _ _ _ [] _ (runOnce_single A _ _ _ _ _ rfl rfl hB)]
  simp [payloads, Server.run]

/-- C10 at a concrete input: 512 bytes `x`, then `GET`, on client descriptor 5. -/
theorem C10_no_stale_bytes_witness :
    payloads (Server.run demoApp demoServer
        [ { num_ready := 1,
            events := [ { ev := { events := EPOLLIN, fd := 5 },
                          env := dataEnv (List.replicate 512 120) } ] },
          { num_ready := 1,
            events := [ { ev := { events := EPOLLIN, fd := 5 },
                          env := dataEnv [71, 69, 84] } ] } ]).1
      = [cstr (List.replicate 512 120 ++ (dataEnv (List.replicate 512 120)).beyond),
         [71, 69, 84]] :=
  C10_no_stale_bytes demoApp demoServer 5 EPOLLIN EPOLLIN (dataEnv (List.replicate 512 120))
    (dataEnv [71, 69, 84]) (List.replicate 512 120) [71, 69, 84]
    (by decide) rfl (List.length_replicate 512 120) rfl (by decide) (by decide) (by decide)

/-! ## C8: one call of the command processor per event, at most -/

/-- C8: while one entry of a batch is handled, `ParseInstruction` is called exactly
once when the entry is for a client descriptor and the read returns `N > 0`, and
not at all when the read returns `≤ 0` or the entry is for the acceptor. -/
theorem C8_at_most_once {σ : Type} (A : Application σ) (s : Server σ) (r : Ready) :
    (payloads (Server.handleEvent A s r).1).length =
      if r.ev.fd ≠ s.server_fd ∧ 0 < r.bytes_received then 1 else 0 := by
  by_cases hfd : r.ev.fd = s.server_fd
  · rw [handleEvent_acceptor A s r hfd]
    simp only [hfd, ne_eq, not_true_eq_false, false_and, if_false]
    split
    · rfl
    · split <;> rfl
  · by_cases hp : 0 < r.bytes_received
    · rw [handleEvent_pos A s r hfd hp]
      simp [hfd, hp, payloads]
    · rw [handleEvent_nonpos A s r hfd (by omega)]
      simp only [ne_eq, hfd, not_false_eq_true, hp, and_false, if_false]
      split <;> rfl

/-! ## C4: no cross-delivery -/

/-- The bytes stored by a read that fits the buffer are the bytes delivered. -/
theorem request_of_fits (r : Ready) (data : List Nat) (hd : r.env.recv_data = some data)
    (hle : data.length ≤ BUFFER_SIZE) : r.request = data := by
  simp only [Ready.request, Ready.bytes_received, hd, recv_fits _ _ _ hle, Int.toNat_ofNat]
  exact List.take_left' rfl

/-- The payload of a read with `N > 0`, when the bytes read leave room for the
terminator or hold a zero byte: the bytes read before their first zero byte. -/
theorem payload_of_request (r : Ready) (hpos : 0 < r.bytes_received)
    (h : r.request.length < BUFFER_SIZE ∨ 0 ∈ r.request) : r.payload = cstr r.request := by
  cases hd : r.env.recv_data with
  | none => simp [Ready.bytes_received, hd, recv] at hpos
  | some d =>
    have hle : (d.take BUFFER_SIZE).length ≤ BUFFER_SIZE := by
      rw [List.length_take]; exact Nat.min_le_left _ _
    have hreq : r.request = d.take BUFFER_SIZE := by
      simp only [Ready.request, Ready.bytes_received, recv, hd, Int.toNat_ofNat]
      exact List.take_left' rfl
    rw [hreq] at h ⊢
    simp only [Ready.payload, recv, hd]
    exact cstr_buffer (d.take BUFFER_SIZE) r.env.beyond h

/-- C4, as stated, fails: clients 5 and 6 each have a request in one batch and the
request read from client 5 is the three bytes `G`, NUL, `X`; the bytes written to
descriptor 5 are the response to the single byte `G`, not the response of the
command processor to the request read. -/
theorem C4_counterexample_request_cut :
    (ready 5 (dataEnv [71, 0, 88])).request = [71, 0, 88] ∧
    0 < (ready 5 (dataEnv [71, 0, 88])).bytes_received ∧
    sends (Server.processEvents demoApp demoServer
        [ready 5 (dataEnv [71, 0, 88]), ready 6 (dataEnv [66])]).1
      = [(5, (demoApp.ParseInstruction 0 [71]).2), (6, (demoApp.ParseInstruction 1 [66]).2)] ∧
    (5, (demoApp.ParseInstruction 0 [71, 0, 88]).2) ∉
      sends (Server.processEvents demoApp demoServer
        [ready 5 (dataEnv [71, 0, 88]), ready 6 (dataEnv [66])]).1 := by
  decide

/-- C4, amended: in every batch, for every client entry `r` that the loop reaches and
whose read returns `N > 0`, the part of the trace that handles `r` is one `recv` on
the descriptor of `r`, one call of `ParseInstruction` and one `send`, on that same
descriptor, of the whole response of that call; no other descriptor is written to
while `r` is handled. The payload of that call is the bytes read before their first
zero byte whenever the bytes read are fewer than `BUFFER_SIZE` or hold a zero byte,
so it is the request itself when the request is shorter than `BUFFER_SIZE` and has
no zero byte. -/
theorem C4_no_cross_delivery {σ : Type} (A : Application σ) (s s1 : Server σ)
    (pre post : List Ready) (r : Ready) (t : List Action)
    (hpre : Server.processEvents A s pre = (t, .running s1))
    (hfd : r.ev.fd ≠ s.server_fd) (hpos : 0 < r.bytes_received) :
    (Server.processEvents A s (pre ++ r :: post)).1 =
        t ++ (Server.handleEvent A s1 r).1 ++
          (Server.processEvents A
            { s1 with application := (A.ParseInstruction s1.application r.payload).1 } post).1 ∧
    (Server.handleEvent A s1 r).1 =
      [.recv r.ev.fd BUFFER_SIZE r.bytes_received, .parseInstruction r.payload,
       .send r.ev.fd (A.ParseInstruction s1.application r.payload).2
         (A.ParseInstruction s1.application r.payload).2.length] ∧
    sends (Server.handleEvent A s1 r).1 =
      [(r.ev.fd, (A.ParseInstruction s1.application r.payload).2)] ∧
    (∀ d bytes, d ≠ r.ev.fd → (d, bytes) ∉ sends (Server.handleEvent A s1 r).1) ∧
    ((r.request.length < BUFFER_SIZE ∨ 0 ∈ r.request) →
      r.payload = r.request.takeWhile (fun b => b != 0)) ∧
    (r.request.length < BUFFER_SIZE → 0 ∉ r.request → r.payload = r.request) ∧
    (∀ data : List Nat, r.env.recv_data = some data → data.length ≤ BUFFER_SIZE →
      r.request = data) := by
  have hfd1 : r.ev.fd ≠ s1.server_fd := by
    rw [(processEvents_fds A pre s s1 t hpre).1]; exact hfd
  have hr := handleEvent_pos A s1 r hfd1 hpos
  refine ⟨?_, ?_, ?_, ?_, ?_, ?_, ?_⟩
  · rw [processEvents_append A pre (r :: post) s s1 t hpre,
      processEvents_cons_running A s1 _ r post _ hr, hr, List.append_assoc]
  · rw [hr]
  · rw [hr]; simp [sends]
  · intro d bytes hd
    rw [hr]
    simp only [sends, List.mem_singleton, Prod.mk.injEq, not_and]
    intro h; exact absurd h hd
  · intro h
    exact payload_of_request r hpos h
  · intro hlt hz
    rw [payload_of_request r hpos (Or.inl hlt)]
    exact cstr_of_not_mem _ hz
  · intro data hd hle
    exact request_of_fits r data hd hle

/-- C4, amended, at a concrete input: clients 5 and 6 both have a request in one
batch; while the entry of client 6 is handled the only `send` goes to descriptor 6,
with the response to the request read from 6. -/
theorem C4_no_cross_delivery_witness :
    sends (Server.handleEvent demoApp { demoServer with application := 1 }
        (ready 6 (dataEnv [66]))).1 = [(6, [79, 75, 66])] ∧
    (ready 6 (dataEnv [66])).payload = (ready 6 (dataEnv [66])).request :=
  ⟨(C4_no_cross_delivery demoApp demoServer { demoServer with application := 1 }
      [ready 5 (dataEnv [65])] [ready 5 (dataEnv [67])] (ready 6 (dataEnv [66]))
      [.recv 5 BUFFER_SIZE 1, .parseInstruction [65], .send 5 [79, 75, 65] 3]
      rfl (by decide) (by decide)).2.2.1,
   (C4_no_cross_delivery demoApp demoServer { demoServer with application := 1 }
      [ready 5 (dataEnv [65])] [ready 5 (dataEnv [67])] (ready 6 (dataEnv [66]))
      [.recv 5 BUFFER_SIZE 1, .parseInstruction [65], .send 5 [79, 75, 65] 3]
      rfl (by decide) (by decide)).2.2.2.2.2.1 (by decide) (by decide)⟩

/-! ## C2: the port the listener is bound to -/

/-- The constructor stores its argument and never reads it: the calls it makes are
the same for every two port values. -/
theorem ctor_trace_ignores_port {σ : Type} (A : Application σ) (p q : Nat) (env : CtorEnv) :
    (Server.ctor A p env).1 = (Server.ctor A q env).1 := by
  unfold Server.ctor
  simp only
  split
  · rfl
  · split
    · rfl
    · split
      · rfl
      · split
        · rfl
        · split <;> rfl

/-- C2 at the failing input: constructed with port 9000, every start-up call
succeeding, the server binds the address whose `sin_port` is `htons(8888)`, which is
not `htons(9000)`, and the start-up log line names 8888. -/
theorem C2_port_9000_binds_8888 :
    bindCalls (Server.ctor demoApp 9000 ctorOk).1 =
      [{ sin_family := AF_INET, sin_port := htons 8888, sin_addr := INADDR_ANY }] ∧
    htons 8888 ≠ htons 9000 ∧
    logs (Server.ctor demoApp 9000 ctorOk).1 =
      [(.INFO, "Server started. Listening on port 8888")] := by
  decide

/-! ## C3: how many connections one acceptor event accepts -/

/-- C3, as stated, fails: two connections are pending and the batch holds the one
entry for the acceptor (descriptor 3); the pass of the loop calls `accept` once,
registers the one descriptor it returned, and one connection is still pending
when the loop goes back to `epoll_wait`. -/
theorem C3_counterexample_two_pending :
    acceptCalls (Server.runOnce demoApp demoServer
      { num_ready := 1, events := [ready 3 (acceptEnv 5)] }).1 = [5] ∧
    addCalls (Server.runOnce demoApp demoServer
      { num_ready := 1, events := [ready 3 (acceptEnv 5)] }).1 = [(5, EPOLLIN ||| EPOLLET)] ∧
    pendingAfter 2 (Server.runOnce demoApp demoServer
      { num_ready := 1, events := [ready 3 (acceptEnv 5)] }).1 = 1 ∧
    pendingAfter 2 (Server.runOnce demoApp demoServer
      { num_ready := 1, events := [ready 3 (acceptEnv 5)] }).1 ≠ 0 := by
  decide

/-- C3, amended: handling one entry for the acceptor calls `accept` exactly once;
when that call succeeds, the descriptor it returned, and no other, is handed to
`EPOLL_CTL_ADD` with the edge-triggered read mask, and of `k` pending connections
`k - 1` are still pending afterwards; when it fails nothing is registered and all
`k` are still pending. -/
theorem C3_one_accept_per_event {σ : Type} (A : Application σ) (s : Server σ) (r : Ready)
    (hfd : r.ev.fd = s.server_fd) :
    acceptCalls (Server.handleEvent A s r).1 = [r.env.accept_ret] ∧
    addCalls (Server.handleEvent A s r).1 =
      (if r.env.accept_ret = -1 then [] else [(r.env.accept_ret, EPOLLIN ||| EPOLLET)]) ∧
    ∀ k : Nat, pendingAfter k (Server.handleEvent A s r).1 =
      (if r.env.accept_ret = -1 then k else k - 1) := by
  rw [handleEvent_acceptor A s r hfd]
  by_cases ha : r.env.accept_ret = -1
  · simp [ha, acceptCalls, addCalls, pendingAfter]
  · by_cases hc : r.env.ctl_ret = -1
    · simp [ha, hc, acceptCalls, addCalls, pendingAfter]
    · simp [ha, hc, acceptCalls, addCalls, pendingAfter]

/-- C3, amended, at a concrete input: three connections pending, one acceptor
entry handled, descriptor 5 accepted and registered, two connections left. -/
theorem C3_one_accept_per_event_witness :
    acceptCalls (Server.handleEvent demoApp demoServer (ready 3 (acceptEnv 5))).1 = [5] ∧
    pendingAfter 3 (Server.handleEvent demoApp demoServer (ready 3 (acceptEnv 5))).1 = 2 :=
  ⟨(C3_one_accept_per_event demoApp demoServer (ready 3 (acceptEnv 5)) rfl).1,
   (C3_one_accept_per_event demoApp demoServer (ready 3 (acceptEnv 5)) rfl).2.2 3⟩

/-! ## C7: when the loop ends the process -/

theorem handleEvent_isExited {σ : Type} (A : Application σ) (s : Server σ) (r : Ready) :
    (Server.handleEvent A s r).2.isExited = true ↔
      (r.ev.fd = s.server_fd ∧ r.env.accept_ret ≠ -1 ∧ r.env.ctl_ret = -1) := by
  by_cases hfd : r.ev.fd = s.server_fd
  · rw [handleEvent_acceptor A s r hfd]
    by_cases ha : r.env.accept_ret = -1
    · simp [ha, hfd, Outcome.isExited]
    · by_cases hc : r.env.ctl_ret = -1
      · simp [ha, hc, hfd, Outcome.isExited]
      · simp [ha, hc, hfd, Outcome.isExited]
  · by_cases hp : 0 < r.bytes_received
    · rw [handleEvent_pos A s r hfd hp]
      simp [hfd, Outcome.isExited]
    · rw [handleEvent_nonpos A s r hfd (by omega)]
      split <;> simp [hfd, Outcome.isExited]

theorem processEvents_isExited {σ : Type} (A : Application σ) (l : List Ready) :
    ∀ s : Server σ, (Server.processEvents A s l).2.isExited = true ↔
      ∃ r ∈ l, r.ev.fd = s.server_fd ∧ r.env.accept_ret ≠ -1 ∧ r.env.ctl_ret = -1 := by
  induction l with
  | nil => intro s; simp [Server.processEvents, Outcome.isExited]
  | cons r l ih =>
    intro s
    have hx := handleEvent_isExited A s r
    rcases hh : Server.handleEvent A s r with ⟨t0, o⟩
    rw [hh] at hx
    cases o with
    | exited c =>
      rw [processEvents_cons_exited A s r l t0 c hh]
      simp only [Outcome.isExited, true_iff] at hx ⊢
      exact ⟨r, List.mem_cons_self _ _, hx⟩
    | running s1 =>
      rw [processEvents_cons_running A s s1 r l t0 hh]
      simp only [Outcome.isExited, Bool.false_eq_true, false_iff] at hx
      rw [ih s1, (handleEvent_fds A s s1 r t0 hh).1]
      constructor
      · rintro ⟨x, hx1, hx2⟩
        exact ⟨x, List.mem_cons_of_mem _ hx1, hx2⟩
      · rintro ⟨x, hx1, hx2⟩
        rcases List.mem_cons.mp hx1 with rfl | hm
        · exact absurd hx2 hx
        · exact ⟨x, hm, hx2⟩

/-- One pass of the loop calls `exit` exactly when `epoll_wait` returned `-1` or, for
some entry of the batch for the acceptor, `accept` succeeded and the registration
of the new descriptor returned `-1`. -/
theorem runOnce_isExited {σ : Type} (A : Application σ) (s : Server σ) (w : WaitResult) :
    (Server.runOnce A s w).2.isExited = true ↔
      (w.num_ready = -1 ∨
        ∃ r ∈ w.events.take w.num_ready.toNat,
          r.ev.fd = s.server_fd ∧ r.env.accept_ret ≠ -1 ∧ r.env.ctl_ret = -1) := by
  by_cases hn : w.num_ready = -1
  · simp [Server.runOnce, hn, Outcome.isExited]
  · simp only [Server.runOnce, if_neg hn, hn, false_or]
    exact processEvents_isExited A _ s

/-- The calls made for an entry include a `send` exactly for a client entry whose
read returns `N > 0`. -/
theorem sends_handleEvent_isEmpty {σ : Type} (A : Application σ) (s : Server σ) (r : Ready) :
    (sends (Server.handleEvent A s r).1).isEmpty = false ↔
      (r.ev.fd ≠ s.server_fd ∧ 0 < r.bytes_received) := by
  by_cases hfd : r.ev.fd = s.server_fd
  · rw [handleEvent_acceptor A s r hfd]
    by_cases ha : r.env.accept_ret = -1
    · simp [ha, hfd, sends]
    · by_cases hc : r.env.ctl_ret = -1
      · simp [ha, hc, hfd, sends]
      · simp [ha, hc, hfd, sends]
  · by_cases hp : 0 < r.bytes_received
    · rw [handleEvent_pos A s r hfd hp]
      simp [hfd, hp, sends]
    · rw [handleEvent_nonpos A s r hfd (by omega)]
      split <;> simp [hfd, hp, sends]

theorem handleEventSig_no_pipe {σ : Type} (A : Application σ) (s : Server σ) (r : Ready)
    (pipe : Bool) (h : ¬ (r.ev.fd ≠ s.server_fd ∧ 0 < r.bytes_received ∧ pipe = true)) :
    Server.handleEventSig A s r pipe =
      ((Server.handleEvent A s r).1, (Server.handleEvent A s r).2.toFate) := by
  unfold Server.handleEventSig
  have hs := sends_handleEvent_isEmpty A s r
  cases pipe with
  | false => simp
  | true =>
    have hne : ¬ ((sends (Server.handleEvent A s r).1).isEmpty = false) := by
      rw [hs]; intro hh; exact h ⟨hh.1, hh.2, rfl⟩
    simp only [Bool.not_eq_false] at hne
    simp [hne]

theorem processEventsSig_cons_running {σ : Type} (A : Application σ) (s s1 : Server σ)
    (e : Ready × Bool) (rest : List (Ready × Bool)) (t : List Action)
    (h : Server.handleEventSig A s e.1 e.2 = (t, .running s1)) :
    Server.processEventsSig A s (e :: rest) =
      (t ++ (Server.processEventsSig A s1 rest).1, (Server.processEventsSig A s1 rest).2) := by
  simp only [Server.processEventsSig, h]

/-- With no signal raised the loop with signals is the loop of `Server.processEvents`. -/
theorem processEventsSig_no_pipe {σ : Type} (A : Application σ) (l : List Ready) :
    ∀ s : Server σ, Server.processEventsSig A s (l.map (fun r => (r, false))) =
      ((Server.processEvents A s l).1, (Server.processEvents A s l).2.toFate) := by
  induction l with
  | nil => intro s; rfl
  | cons r l ih =>
    intro s
    have hs := handleEventSig_no_pipe A s r false (fun hh => by simp at hh)
    rcases hh : Server.handleEvent A s r with ⟨t0, o⟩
    rw [hh] at hs
    cases o with
    | exited c =>
      rw [processEvents_cons_exited A s r l t0 c hh]
      simp only [List.map_cons, Server.processEventsSig, hs, Outcome.toFate]
    | running s1 =>
      rw [processEvents_cons_running A s s1 r l t0 hh, List.map_cons,
        processEventsSig_cons_running A s s1 (r, false) _ t0 hs, ih s1]

theorem Kernel.run_append (k : Kernel) (t1 t2 : List Action) :
    k.run (t1 ++ t2) = (k.run t1).run t2 := by
  simp [Kernel.run, List.foldl_append]

theorem Kernel.run_cons (k : Kernel) (a : Action) (t : List Action) :
    k.run (a :: t) = (k.apply a).run t := rfl

theorem Kernel.run_nil (k : Kernel) : k.run [] = k := rfl

theorem Kernel.admitsAll_append (t1 t2 : List Action) :
    ∀ k : Kernel, k.admitsAll (t1 ++ t2) = (k.admitsAll t1 && (k.run t1).admitsAll t2) := by
  induction t1 with
  | nil => intro k; simp [Kernel.admitsAll, Kernel.run]
  | cons a t1 ih =>
    intro k
    simp [Kernel.admitsAll, Kernel.run_cons, ih, Bool.and_assoc]

/-- Closing a descriptor and then asking for its removal from the interest list
leaves the kernel as the `close` alone does: the removal meets a closed descriptor. -/
theorem Kernel.close_then_del (k : Kernel) (ep c : Int) :
    (k.apply (.close c)).apply (.epoll_ctl_del ep c) =
      { openFds := k.openFds.filter (fun d => d != c),
        interest := k.interest.filter (fun p => p.1 != c) } := by
  simp [Kernel.apply]

/-- Kernel state after the teardown branch, whichever way the read ended. -/
theorem Kernel.run_teardown {σ : Type} (A : Application σ) (s : Server σ) (r : Ready)
    (k : Kernel) (hfd : r.ev.fd ≠ s.server_fd) (hle : r.bytes_received ≤ 0) :
    k.run (Server.handleEvent A s r).1 =
      { openFds := k.openFds.filter (fun d => d != r.ev.fd),
        interest := k.interest.filter (fun p => p.1 != r.ev.fd) } := by
  rw [handleEvent_nonpos A s r hfd hle]
  split
  · simp only [Kernel.run_cons, Kernel.run_nil]
    exact Kernel.close_then_del k s.epoll_fd r.ev.fd
  · simp only [Kernel.run_cons, Kernel.run_nil]
    exact Kernel.close_then_del k s.epoll_fd r.ev.fd

/-! ## C5: teardown of a client descriptor -/

/-- C5, as stated, fails on the order of the two calls: client descriptor 5 is open
and registered and its read returns 0; the handler calls `close(5)` first and
`EPOLL_CTL_DEL` for 5 second, so the removal is asked for a descriptor that is
closed already. -/
theorem C5_counterexample_close_first :
    teardownCalls (Server.handleEvent demoApp demoServer (ready 5 (dataEnv []))).1
      = [.close 5, .epoll_ctl_del 4 5] ∧
    teardownCalls (Server.handleEvent demoApp demoServer (ready 5 (dataEnv []))).1
      ≠ [.epoll_ctl_del 4 5, .close 5] ∧
    (Kernel.run { openFds := [5, 4, 3], interest := [(5, 2147483649), (3, 2147483649)] }
      [.recv 5 BUFFER_SIZE 0, .getpeername 5, .close 5]).isOpen 5 = false := by
  decide

/-- C5, amended: for every client descriptor whose read returns `r ≤ 0`, the handler
calls `close` on it and then `EPOLL_CTL_DEL` for it, each exactly once and no other
`close` or `EPOLL_CTL_DEL`; afterwards the descriptor is neither open nor
registered; the kernel state reached is the same for `r = 0` and `r < 0`; the log
entry is INFO `Client disconnected` with the address left in `client_addr` by
`getpeername` for `r = 0`, and ERROR `Error in recv` for `r < 0`. -/
theorem C5_teardown {σ : Type} (A : Application σ) (s : Server σ) (r : Ready) (k : Kernel)
    (hfd : r.ev.fd ≠ s.server_fd) (hle : r.bytes_received ≤ 0) :
    teardownCalls (Server.handleEvent A s r).1 =
      [.close r.ev.fd, .epoll_ctl_del s.epoll_fd r.ev.fd] ∧
    (k.run (Server.handleEvent A s r).1).isOpen r.ev.fd = false ∧
    (k.run (Server.handleEvent A s r).1).registered r.ev.fd = false ∧
    k.run (Server.handleEvent A s r).1 =
      { openFds := k.openFds.filter (fun d => d != r.ev.fd),
        interest := k.interest.filter (fun p => p.1 != r.ev.fd) } ∧
    (r.bytes_received = 0 →
      logs (Server.handleEvent A s r).1 =
        [(.INFO, "Client disconnected " ++
          peerText (match r.env.peername with | some a => a | none => s.client_addr))]) ∧
    (r.bytes_received < 0 →
      logs (Server.handleEvent A s r).1 = [(.ERROR, "Error in recv")]) := by
  have hk := Kernel.run_teardown A s r k hfd hle
  refine ⟨?_, ?_, ?_, hk, ?_, ?_⟩
  · rw [handleEvent_nonpos A s r hfd hle]
    split <;> simp [teardownCalls]
  · rw [hk]; simp [Kernel.isOpen]
  · rw [hk]; simp [Kernel.registered]
  · intro h0
    rw [handleEvent_nonpos A s r hfd hle, if_pos h0]
    simp [logs]
  · intro hneg
    have h0 : ¬ r.bytes_received = 0 := by omega
    rw [handleEvent_nonpos A s r hfd hle, if_neg h0]
    simp [logs]

/-- C5, amended, at a concrete input: the read on client descriptor 5 fails while 5
is open and registered; afterwards 5 is neither, and the acceptor 3 still is. -/
theorem C5_teardown_witness :
    Kernel.run { openFds := [5, 4, 3], interest := [(5, 2147483649), (3, 2147483649)] }
        (Server.handleEvent demoApp demoServer (ready 5 errEnv)).1
      = { openFds := [4, 3], interest := [(3, 2147483649)] } :=
  (C5_teardown demoApp demoServer (ready 5 errEnv)
    { openFds := [5, 4, 3], interest := [(5, 2147483649), (3, 2147483649)] }
    (by decide) (by decide)).2.2.2.1

/-! ## C6: the other connections are not touched by a teardown -/

/-- C6: when the read on client descriptor `c` returns `≤ 0`, the handler goes on
running, and for every descriptor `d ≠ c`, the acceptor included: `d` is open
afterwards exactly when it was before, its entries in the interest list are the
same, and a later request on `d` (a client entry for `d` whose read returns
`N > 0`) is answered on `d` with the response of the command processor, in the
state the processor had before the teardown. -/
theorem C6_teardown_frame {σ : Type} (A : Application σ) (s : Server σ) (r : Ready)
    (k : Kernel) (hfd : r.ev.fd ≠ s.server_fd) (hle : r.bytes_received ≤ 0) :
    ∃ (t : List Action) (s1 : Server σ),
      Server.handleEvent A s r = (t, .running s1) ∧
      ∀ d : Int, d ≠ r.ev.fd →
        ((k.run t).isOpen d = k.isOpen d) ∧
        ((k.run t).registered d = k.registered d) ∧
        (∀ m : Nat, (d, m) ∈ (k.run t).interest ↔ (d, m) ∈ k.interest) ∧
        (∀ r2 : Ready, r2.ev.fd = d → d ≠ s.server_fd → 0 < r2.bytes_received →
          (Server.handleEvent A s1 r2).1 =
            [.recv d BUFFER_SIZE r2.bytes_received, .parseInstruction r2.payload,
             .send d (A.ParseInstruction s.application r2.payload).2
               (A.ParseInstruction s.application r2.payload).2.length]) := by
  have hk := Kernel.run_teardown A s r k hfd hle
  rcases hh : Server.handleEvent A s r with ⟨t, o⟩
  have hs : ∃ s1 : Server σ, o = .running s1 ∧ s1.server_fd = s.server_fd ∧
      s1.application = s.application := by
    rw [handleEvent_nonpos A s r hfd hle] at hh
    split at hh
    · cases hh
      cases r.env.peername <;> exact ⟨_, rfl, rfl, rfl⟩
    · cases hh
      exact ⟨_, rfl, rfl, rfl⟩
  obtain ⟨s1, rfl, hs1, hs2⟩ := hs
  rw [hh] at hk
  refine ⟨t, s1, rfl, ?_⟩
  intro d hd
  refine ⟨?_, ?_, ?_, ?_⟩
  · simp only [hk, Kernel.isOpen]
    rw [Bool.eq_iff_iff]
    simp [List.mem_filter, hd]
  · simp only [hk, Kernel.registered]
    rw [Bool.eq_iff_iff]
    simp only [List.contains_iff_exists_mem_beq, beq_iff_eq, List.mem_map, List.mem_filter,
      exists_exists_and_eq_and]
    constructor
    · rintro ⟨p, ⟨hp, _⟩, rfl⟩; exact ⟨p, hp, rfl⟩
    · rintro ⟨p, hp, rfl⟩; exact ⟨p, ⟨hp, by simpa using hd⟩, rfl⟩
  · intro m
    simp [hk, List.mem_filter, hd]
  · intro r2 h2 hds hpos
    subst h2
    rw [handleEvent_pos A s1 r2 (by rw [hs1]; exact hds) hpos, hs2]

/-- C6 at a concrete input: client 5 closes while client 6 and the acceptor 3 are
registered; 6 and 3 stay open and registered and the next request on 6 is answered. -/
theorem C6_teardown_frame_witness :
    ∃ (t : List Action) (s1 : Server Nat),
      Server.handleEvent demoApp demoServer (ready 5 (dataEnv [])) = (t, .running s1) ∧
      ∀ d : Int, d ≠ 5 →
        ((Kernel.run ⟨[6, 5, 4, 3], [(6, 2147483649), (5, 2147483649), (3, 2147483649)]⟩
            t).isOpen d
          = Kernel.isOpen
              ⟨[6, 5, 4, 3], [(6, 2147483649), (5, 2147483649), (3, 2147483649)]⟩ d) ∧
        ((Kernel.run ⟨[6, 5, 4, 3], [(6, 2147483649), (5, 2147483649), (3, 2147483649)]⟩
            t).registered d
          = Kernel.registered
              ⟨[6, 5, 4, 3], [(6, 2147483649), (5, 2147483649), (3, 2147483649)]⟩ d) ∧
        (∀ m : Nat,
          (d, m) ∈ (Kernel.run
              ⟨[6, 5, 4, 3], [(6, 2147483649), (5, 2147483649), (3, 2147483649)]⟩ t).interest
            ↔ (d, m) ∈ [(6, 2147483649), (5, 2147483649), (3, 2147483649)]) ∧
        (∀ r2 : Ready, r2.ev.fd = d → d ≠ 3 → 0 < r2.bytes_received →
          (Server.handleEvent demoApp s1 r2).1 =
            [.recv d BUFFER_SIZE r2.bytes_received, .parseInstruction r2.payload,
             .send d (demoApp.ParseInstruction 0 r2.payload).2
               (demoApp.ParseInstruction 0 r2.payload).2.length]) :=
  C6_teardown_frame demoApp demoServer (ready 5 (dataEnv []))
    ⟨[6, 5, 4, 3], [(6, 2147483649), (5, 2147483649), (3, 2147483649)]⟩
    (by decide) (by decide)

/-! ## C9: the interest list over the life of the server -/

theorem addsFollowAccept_of_no_add (t : List Action) (h : ∀ a ∈ t, a.isAdd = false) :
    AddsFollowAccept t := by
  intro pre post ep fd ev ret ht
  have hm : Action.epoll_ctl_add ep fd ev ret ∈ t := by rw [ht]; simp
  have := h _ hm
  simp [Action.isAdd] at this

theorem addsFollowAccept_append (t1 t2 : List Action) (h1 : AddsFollowAccept t1)
    (h2 : AddsFollowAccept t2) : AddsFollowAccept (t1 ++ t2) := by
  intro pre post ep fd ev ret ht
  rcases List.append_eq_append_iff.mp ht with ⟨a, ha1, ha2⟩ | ⟨c, hc1, hc2⟩
  · obtain ⟨pre0, sfd, m1, m2, hp⟩ := h2 a post ep fd ev ret ha2
    exact ⟨t1 ++ pre0, sfd, m1, m2, by rw [ha1, hp, List.append_assoc]⟩
  · cases c with
    | nil =>
      simp only [List.nil_append] at hc2
      obtain ⟨pre0, sfd, m1, m2, hp⟩ := h2 [] post ep fd ev ret (by rw [← hc2]; rfl)
      simp at hp
    | cons x c =>
      simp only [List.cons_append, List.cons.injEq] at hc2
      obtain ⟨hx, _⟩ := hc2
      subst hx
      exact h1 pre c ep fd ev ret hc1

theorem addsFollowAccept_accept_add (sfd c ep : Int) (m1 m2 : String) (ev : EpollEvent)
    (ret : Int) :
    AddsFollowAccept [.accept sfd c, .cout m1, .log .INFO m2, .epoll_ctl_add ep c ev ret] := by
  intro pre post ep1 fd ev1 ret1 ht
  rcases pre with _ | ⟨a, _ | ⟨b, _ | ⟨d, _ | ⟨e, pre⟩⟩⟩⟩
  · simp at ht
  · simp at ht
  · simp at ht
  · simp only [List.cons_append, List.nil_append, List.cons.injEq, Action.epoll_ctl_add.injEq]
      at ht
    obtain ⟨ha, hb, hd, ⟨_, hfd, _, _⟩, _⟩ := ht
    exact ⟨[], sfd, m1, m2, by rw [← ha, ← hb, ← hd, ← hfd]; rfl⟩
  · simp at ht

theorem handleEvent_addsFollowAccept {σ : Type} (A : Application σ) (s : Server σ)
    (r : Ready) : AddsFollowAccept (Server.handleEvent A s r).1 := by
  by_cases hfd : r.ev.fd = s.server_fd
  · rw [handleEvent_acceptor A s r hfd]
    split
    · exact addsFollowAccept_of_no_add _ (by simp [Action.isAdd])
    · split
      · exact addsFollowAccept_append _ [_, _, _]
          (addsFollowAccept_accept_add _ _ _ _ _ _ _)
          (addsFollowAccept_of_no_add _ (by simp [Action.isAdd]))
      · exact addsFollowAccept_accept_add _ _ _ _ _ _ _
  · by_cases hp : 0 < r.bytes_received
    · rw [handleEvent_pos A s r hfd hp]
      exact addsFollowAccept_of_no_add _ (by simp [Action.isAdd])
    · rw [handleEvent_nonpos A s r hfd (by omega)]
      split <;> exact addsFollowAccept_of_no_add _ (by simp [Action.isAdd])

theorem processEvents_addsFollowAccept {σ : Type} (A : Application σ) (l : List Ready) :
    ∀ s : Server σ, AddsFollowAccept (Server.processEvents A s l).1 := by
  induction l with
  | nil => intro s; exact addsFollowAccept_of_no_add _ (by simp [Server.processEvents])
  | cons r l ih =>
    intro s
    have h0 := handleEvent_addsFollowAccept A s r
    rcases hh : Server.handleEvent A s r with ⟨t0, o⟩
    rw [hh] at h0
    cases o with
    | exited c => rw [processEvents_cons_exited A s r l t0 c hh]; exact h0
    | running s1 =>
      rw [processEvents_cons_running A s s1 r l t0 hh]
      exact addsFollowAccept_append _ _ h0 (ih s1)

theorem runOnce_addsFollowAccept {σ : Type} (A : Application σ) (s : Server σ)
    (w : WaitResult) : AddsFollowAccept (Server.runOnce A s w).1 := by
  unfold Server.runOnce
  simp only
  split
  · exact addsFollowAccept_of_no_add _ (by simp [Action.isAdd])
  · exact addsFollowAccept_append [_] _
      (addsFollowAccept_of_no_add _ (by simp [Action.isAdd]))
      (processEvents_addsFollowAccept A _ s)

theorem run_addsFollowAccept {σ : Type} (A : Application σ) (ws : List WaitResult) :
    ∀ s : Server σ, AddsFollowAccept (Server.run A s ws).1 := by
  induction ws with
  | nil => intro s; exact addsFollowAccept_of_no_add _ (by simp [Server.run])
  | cons w ws ih =>
    intro s
    have h0 := runOnce_addsFollowAccept A s w
    rcases hh : Server.runOnce A s w with ⟨t0, o⟩
    rw [hh] at h0
    cases o with
    | exited c => rw [run_cons_exited A s w ws t0 c hh]; exact h0
    | running s1 =>
      rw [run_cons_running A s s1 w ws t0 hh]
      exact addsFollowAccept_append _ _ h0 (ih s1)

theorem handleEvent_teardownOf {σ : Type} (A : Application σ) (s : Server σ) (r : Ready)
    (a : Action) (fd : Int) (ha : a ∈ (Server.handleEvent A s r).1)
    (hfd : a.teardownOf = some fd) : fd ≠ s.server_fd ∧ r.ev.fd = fd := by
  by_cases hs : r.ev.fd = s.server_fd
  · rw [handleEvent_acceptor A s r hs] at ha
    split at ha
    · simp only [List.mem_cons, List.mem_singleton, List.not_mem_nil, or_false] at ha
      rcases ha with rfl | rfl | rfl <;> simp [Action.teardownOf] at hfd
    · split at ha
      · simp only [List.mem_cons, List.mem_singleton, List.not_mem_nil, or_false] at ha
        rcases ha with rfl | rfl | rfl | rfl | rfl | rfl | rfl <;>
          simp [Action.teardownOf] at hfd
      · simp only [List.mem_cons, List.mem_singleton, List.not_mem_nil, or_false] at ha
        rcases ha with rfl | rfl | rfl | rfl <;> simp [Action.teardownOf] at hfd
  · by_cases hp : 0 < r.bytes_received
    · rw [handleEvent_pos A s r hs hp] at ha
      simp only [List.mem_cons, List.mem_singleton, List.not_mem_nil, or_false] at ha
      rcases ha with rfl | rfl | rfl <;> simp [Action.teardownOf] at hfd
    · rw [handleEvent_nonpos A s r hs (by omega)] at ha
      split at ha
      · simp only [List.mem_cons, List.mem_singleton, List.not_mem_nil, or_false] at ha
        rcases ha with rfl | rfl | rfl | rfl | rfl | rfl <;>
          simp only [Action.teardownOf, Option.some.injEq, reduceCtorEq] at hfd
        · exact ⟨hfd ▸ hs, hfd⟩
        · exact ⟨hfd ▸ hs, hfd⟩
      · simp only [List.mem_cons, List.mem_singleton, List.not_mem_nil, or_false] at ha
        rcases ha with rfl | rfl | rfl | rfl | rfl <;>
          simp only [Action.teardownOf, Option.some.injEq, reduceCtorEq] at hfd
        · exact ⟨hfd ▸ hs, hfd⟩
        · exact ⟨hfd ▸ hs, hfd⟩

theorem processEvents_teardownOf {σ : Type} (A : Application σ) (l : List Ready) :
    ∀ (s : Server σ) (a : Action) (fd : Int), a ∈ (Server.processEvents A s l).1 →
      a.teardownOf = some fd → fd ≠ s.server_fd ∧ ∃ r ∈ l, r.ev.fd = fd := by
  induction l with
  | nil => intro s a fd ha; simp [Server.processEvents] at ha
  | cons r l ih =>
    intro s a fd ha hfd
    rcases hh : Server.handleEvent A s r with ⟨t0, o⟩
    cases o with
    | exited c =>
      rw [processEvents_cons_exited A s r l t0 c hh] at ha
      have h := handleEvent_teardownOf A s r a fd (by rw [hh]; exact ha) hfd
      exact ⟨h.1, r, List.mem_cons_self _ _, h.2⟩
    | running s1 =>
      rw [processEvents_cons_running A s s1 r l t0 hh] at ha
      rcases List.mem_append.mp ha with h0 | h1
      · have h := handleEvent_teardownOf A s r a fd (by rw [hh]; exact h0) hfd
        exact ⟨h.1, r, List.mem_cons_self _ _, h.2⟩
      · obtain ⟨h2, x, hx, hx2⟩ := ih s1 a fd h1 hfd
        rw [(handleEvent_fds A s s1 r t0 hh).1] at h2
        exact ⟨h2, x, List.mem_cons_of_mem _ hx, hx2⟩

theorem runOnce_fds {σ : Type} (A : Application σ) (s s1 : Server σ) (w : WaitResult)
    (t : List Action) (h : Server.runOnce A s w = (t, .running s1)) :
    s1.server_fd = s.server_fd ∧ s1.epoll_fd = s.epoll_fd := by
  unfold Server.runOnce at h
  simp only at h
  split at h
  · cases h
  · rcases hp : Server.processEvents A s (w.events.take w.num_ready.toNat) with ⟨tp, op⟩
    rw [hp] at h
    cases h
    exact processEvents_fds A _ s s1 tp hp

theorem runOnce_teardownOf {σ : Type} (A : Application σ) (s : Server σ) (w : WaitResult)
    (a : Action) (fd : Int) (ha : a ∈ (Server.runOnce A s w).1)
    (hfd : a.teardownOf = some fd) : fd ≠ s.server_fd ∧ ∃ r ∈ w.events, r.ev.fd = fd := by
  unfold Server.runOnce at ha
  simp only at ha
  split at ha
  · simp only [List.mem_cons, List.mem_singleton, List.not_mem_nil, or_false] at ha
    rcases ha with rfl | rfl | rfl | rfl <;> simp [Action.teardownOf] at hfd
  · rcases List.mem_cons.mp ha with rfl | h1
    · simp [Action.teardownOf] at hfd
    · obtain ⟨h2, x, hx, hx2⟩ := processEvents_teardownOf A _ s a fd h1 hfd
      exact ⟨h2, x, List.mem_of_mem_take hx, hx2⟩

theorem run_teardownOf {σ : Type} (A : Application σ) (ws : List WaitResult) :
    ∀ (s : Server σ) (a : Action) (fd : Int), a ∈ (Server.run A s ws).1 →
      a.teardownOf = some fd →
      fd ≠ s.server_fd ∧ ∃ w ∈ ws, ∃ r ∈ w.events, r.ev.fd = fd := by
  induction ws with
  | nil => intro s a fd ha; simp [Server.run] at ha
  | cons w ws ih =>
    intro s a fd ha hfd
    rcases hh : Server.runOnce A s w with ⟨t0, o⟩
    cases o with
    | exited c =>
      rw [run_cons_exited A s w ws t0 c hh] at ha
      obtain ⟨h1, h2⟩ := runOnce_teardownOf A s w a fd (by rw [hh]; exact ha) hfd
      exact ⟨h1, w, List.mem_cons_self _ _, h2⟩
    | running s1 =>
      rw [run_cons_running A s s1 w ws t0 hh] at ha
      rcases List.mem_append.mp ha with h0 | h1
      · obtain ⟨h1, h2⟩ := runOnce_teardownOf A s w a fd (by rw [hh]; exact h0) hfd
        exact ⟨h1, w, List.mem_cons_self _ _, h2⟩
      · obtain ⟨h2, x, hx, hx2⟩ := ih s1 a fd h1 hfd
        rw [(runOnce_fds A s s1 w t0 hh).1] at h2
        exact ⟨h2, x, List.mem_cons_of_mem _ hx, hx2⟩

theorem KInv_more_open (k : Kernel) (sfd c : Int) (h : KInv k sfd) :
    KInv { k with openFds := c :: k.openFds } sfd :=
  ⟨h.1, h.2.1, fun p hp => List.mem_cons_of_mem _ (h.2.2 p hp)⟩

theorem KInv_register (k : Kernel) (sfd c : Int) (m : Nat) (h : KInv k sfd)
    (hc : c ∉ k.openFds) :
    KInv { openFds := c :: k.openFds, interest := (c, m) :: k.interest } sfd := by
  refine ⟨List.mem_cons_of_mem _ h.1, ?_, ?_⟩
  · simp only [List.map_cons, List.nodup_cons]
    refine ⟨?_, h.2.1⟩
    intro hm
    obtain ⟨p, hp, hpc⟩ := List.mem_map.mp hm
    exact hc (hpc ▸ h.2.2 p hp)
  · intro p hp
    rcases List.mem_cons.mp hp with rfl | hp
    · exact List.mem_cons_self _ _
    · exact List.mem_cons_of_mem _ (h.2.2 p hp)

theorem KInv_close (k : Kernel) (sfd c : Int) (h : KInv k sfd) (hc : c ≠ sfd) :
    KInv { openFds := k.openFds.filter (fun d => d != c),
           interest := k.interest.filter (fun p => p.1 != c) } sfd := by
  refine ⟨?_, ?_, ?_⟩
  · simp only [List.mem_filter]
    exact ⟨h.1, by simpa using fun e => hc e.symm⟩
  · exact List.Nodup.sublist (List.Sublist.map _ (List.filter_sublist _)) h.2.1
  · intro p hp
    simp only [List.mem_filter] at hp ⊢
    exact ⟨h.2.2 p hp.1, hp.2⟩

/-- Kernel state after the calls of the new-connection branch. -/
theorem Kernel.run_accept_add (k : Kernel) (sfd c ep : Int) (m1 m2 : String)
    (ev : EpollEvent) (ret : Int) (hc : c ≠ -1) :
    k.run [.accept sfd c, .cout m1, .log .INFO m2, .epoll_ctl_add ep c ev ret] =
      if ret = 0 then { openFds := c :: k.openFds, interest := (c, ev.events) :: k.interest }
      else { k with openFds := c :: k.openFds } := by
  simp only [Kernel.run_cons, Kernel.run_nil, Kernel.apply, if_neg hc]

theorem Kernel.admits_accept_add (k : Kernel) (sfd c ep : Int) (m1 m2 : String)
    (ev : EpollEvent) (ret : Int) (rest : List Action) (hc : c ≠ -1)
    (h : k.admitsAll
      ([.accept sfd c, .cout m1, .log .INFO m2, .epoll_ctl_add ep c ev ret] ++ rest) = true) :
    c ∉ k.openFds := by
  simp only [List.cons_append, Kernel.admitsAll, Kernel.admits, Bool.and_eq_true,
    Bool.or_eq_true, beq_iff_eq, hc, false_or, Bool.not_eq_true', decide_eq_true_eq] at h
  intro hm
  have := h.1.2
  simp [hm] at this

/-- Handling one entry keeps the kernel property, when the kernel can have produced
the results met. -/
theorem handleEvent_KInv {σ : Type} (A : Application σ) (s : Server σ) (r : Ready)
    (k : Kernel) (h : KInv k s.server_fd)
    (hadm : k.admitsAll (Server.handleEvent A s r).1 = true) :
    KInv (k.run (Server.handleEvent A s r).1) s.server_fd := by
  by_cases hs : r.ev.fd = s.server_fd
  · rw [handleEvent_acceptor A s r hs] at hadm ⊢
    by_cases ha : r.env.accept_ret = -1
    · rw [if_pos ha]
      simp only [Kernel.run_cons, Kernel.run_nil, Kernel.apply, ha, if_true]
      exact h
    · rw [if_neg ha] at hadm ⊢
      by_cases hc : r.env.ctl_ret = -1
      · rw [if_pos hc] at hadm ⊢
        have hfresh := Kernel.admits_accept_add k _ _ _ _ _ _ _
          [.cerr "Failed to add client socket to epoll\n",
            .log .ERROR "Failed to add client socket to epoll", .exit EXIT_FAILURE] ha hadm
        have hsplit : ∀ (a b c d e f g : Action),
            [a, b, c, d, e, f, g] = [a, b, c, d] ++ [e, f, g] := fun _ _ _ _ _ _ _ => rfl
        rw [hsplit, Kernel.run_append, Kernel.run_accept_add k _ _ _ _ _ _ _ ha]
        simp only [Kernel.run_cons, Kernel.run_nil, Kernel.apply]
        split
        · exact KInv_register k _ _ _ h hfresh
        · exact KInv_more_open k _ _ h
      · rw [if_neg hc] at hadm ⊢
        have hfresh := Kernel.admits_accept_add k _ _ _ _ _ _ _ [] ha
          (by rw [List.append_nil]; exact hadm)
        rw [Kernel.run_accept_add k _ _ _ _ _ _ _ ha]
        split
        · exact KInv_register k _ _ _ h hfresh
        · exact KInv_more_open k _ _ h
  · by_cases hp : 0 < r.bytes_received
    · rw [handleEvent_pos A s r hs hp]
      simp only [Kernel.run_cons, Kernel.run_nil, Kernel.apply]
      exact h
    · rw [Kernel.run_teardown A s r k hs (by omega)]
      exact KInv_close k _ _ h hs

theorem processEvents_KInv {σ : Type} (A : Application σ) (l : List Ready) :
    ∀ (s : Server σ) (k : Kernel), KInv k s.server_fd →
      k.admitsAll (Server.processEvents A s l).1 = true →
      KInv (k.run (Server.processEvents A s l).1) s.server_fd := by
  induction l with
  | nil => intro s k h _; simpa [Server.processEvents, Kernel.run_nil] using h
  | cons r l ih =>
    intro s k h hadm
    rcases hh : Server.handleEvent A s r with ⟨t0, o⟩
    have h0 := handleEvent_KInv A s r k h
    rw [hh] at h0
    cases o with
    | exited c =>
      rw [processEvents_cons_exited A s r l t0 c hh] at hadm ⊢
      exact h0 hadm
    | running s1 =>
      rw [processEvents_cons_running A s s1 r l t0 hh] at hadm ⊢
      simp only [Kernel.admitsAll_append, Bool.and_eq_true] at hadm
      rw [Kernel.run_append]
      have hfd := (handleEvent_fds A s s1 r t0 hh).1
      have h1 := ih s1 (k.run t0) (by rw [hfd]; exact h0 hadm.1) hadm.2
      rw [hfd] at h1
      exact h1

theorem runOnce_KInv {σ : Type} (A : Application σ) (s : Server σ) (w : WaitResult)
    (k : Kernel) (h : KInv k s.server_fd)
    (hadm : k.admitsAll (Server.runOnce A s w).1 = true) :
    KInv (k.run (Server.runOnce A s w).1) s.server_fd := by
  unfold Server.runOnce at hadm ⊢
  simp only at hadm ⊢
  split
  · simp only [Kernel.run_cons, Kernel.run_nil, Kernel.apply]
    exact h
  · rename_i hn
    rw [if_neg hn] at hadm
    simp only [Kernel.admitsAll, Kernel.admits, Bool.true_and] at hadm
    simp only [Kernel.run_cons, Kernel.apply]
    exact processEvents_KInv A _ s k h hadm

theorem run_KInv {σ : Type} (A : Application σ) (ws : List WaitResult) :
    ∀ (s : Server σ) (k : Kernel), KInv k s.server_fd →
      k.admitsAll (Server.run A s ws).1 = true →
      KInv (k.run (Server.run A s ws).1) s.server_fd := by
  induction ws with
  | nil => intro s k h _; simpa [Server.run, Kernel.run_nil] using h
  | cons w ws ih =>
    intro s k h hadm
    rcases hh : Server.runOnce A s w with ⟨t0, o⟩
    have h0 := runOnce_KInv A s w k h
    rw [hh] at h0
    cases o with
    | exited c =>
      rw [run_cons_exited A s w ws t0 c hh] at hadm ⊢
      exact h0 hadm
    | running s1 =>
      rw [run_cons_running A s s1 w ws t0 hh] at hadm ⊢
      simp only [Kernel.admitsAll_append, Bool.and_eq_true] at hadm
      rw [Kernel.run_append]
      have hfd := (runOnce_fds A s s1 w t0 hh).1
      have h1 := ih s1 (k.run t0) (by rw [hfd]; exact h0 hadm.1) hadm.2
      rw [hfd] at h1
      exact h1

/-- A constructor that returns has made exactly the calls of the success path. -/
theorem ctor_running {σ : Type} (A : Application σ) (port : Nat) (env : CtorEnv)
    (t0 : List Action) (s0 : Server σ) (h : Server.ctor A port env = (t0, .running s0)) :
    env.socket_ret ≠ -1 ∧ env.epoll_create_ret ≠ -1 ∧ env.ctl_ret ≠ -1 ∧
    s0.server_fd = env.socket_ret ∧ s0.epoll_fd = env.epoll_create_ret ∧
    t0 = [.initLogger "server.log", .newApplication,
          .socket AF_INET SOCK_STREAM IPPROTO_TCP env.socket_ret,
          .bind env.socket_ret
            { sin_family := AF_INET, sin_addr := INADDR_ANY, sin_port := htons PORT }
            env.bind_ret,
          .listen env.socket_ret BACKLOG_SIZE env.listen_ret,
          .epoll_create1 0 env.epoll_create_ret,
          .epoll_ctl_add env.epoll_create_ret env.socket_ret
            { events := EPOLLIN ||| EPOLLET, fd := env.socket_ret } env.ctl_ret,
          .cout ("Server started. Listening on port " ++ toString PORT ++ "\n"),
          .log .INFO ("Server started. Listening on port " ++ toString PORT)] := by
  unfold Server.ctor at h
  simp only at h
  split at h
  · cases h
  · split at h
    · cases h
    · split at h
      · cases h
      · split at h
        · cases h
        · split at h
          · cases h
          · rename_i h1 _ _ h4 h5
            cases h
            exact ⟨h1, h4, h5, rfl, rfl, rfl⟩

/-- After a successful start-up the kernel property holds. -/
theorem ctor_KInv {σ : Type} (A : Application σ) (port : Nat) (env : CtorEnv)
    (t0 : List Action) (s0 : Server σ) (h : Server.ctor A port env = (t0, .running s0))
    (hadm : Kernel.empty.admitsAll t0 = true) :
    KInv (Kernel.empty.run t0) s0.server_fd := by
  obtain ⟨h1, h4, h5, hs, _, ht⟩ := ctor_running A port env t0 s0 h
  subst ht
  have hctl : env.ctl_ret = 0 := by
    simp only [Kernel.admitsAll, Kernel.admits, Kernel.apply, Bool.and_eq_true,
      Bool.or_eq_true, beq_iff_eq] at hadm
    rcases hadm.2.2.2.2.2.2.1 with h0 | h0
    · exact h0
    · exact absurd h0 h5
  simp only [Kernel.run_cons, Kernel.run_nil, Kernel.apply, Kernel.empty, if_neg h1, if_neg h4,
    hctl, if_true, hs]
  refine ⟨List.mem_cons_self _ _, by simp, ?_⟩
  intro p hp
  simp only [List.mem_singleton] at hp
  subst hp
  simp

/-! ### The statement of C9 -/

/-- C9: take a constructor that returned and any number of passes of the loop of
`Server::run`, with system-call results the kernel can have produced (a call
that creates a descriptor returns one that is not open at that moment). In the
kernel state reached, the acceptor has its entry in the interest list, for
edge-triggered read-readiness, and no descriptor has two entries. Every `close` and
every `EPOLL_CTL_DEL` of the loop is for the descriptor of an entry of a batch and
that descriptor differs from `server_fd`; every `EPOLL_CTL_ADD` of the loop comes
right after the `accept` that returned the descriptor it registers. -/
theorem C9_interest_list_invariant {σ : Type} (A : Application σ) (port : Nat)
    (cenv : CtorEnv) (t0 : List Action) (s0 : Server σ) (ws : List WaitResult)
    (hctor : Server.ctor A port cenv = (t0, .running s0))
    (hadm : Kernel.empty.admitsAll (t0 ++ (Server.run A s0 ws).1) = true) :
    (s0.server_fd, EPOLLIN ||| EPOLLET) ∈
      (Kernel.empty.run (t0 ++ (Server.run A s0 ws).1)).interest ∧
    ((Kernel.empty.run (t0 ++ (Server.run A s0 ws).1)).interest.map Prod.fst).Nodup ∧
    (∀ ep fd : Int, Action.epoll_ctl_del ep fd ∈ (Server.run A s0 ws).1 →
      fd ≠ s0.server_fd ∧ ∃ w ∈ ws, ∃ r ∈ w.events, r.ev.fd = fd) ∧
    (∀ fd : Int, Action.close fd ∈ (Server.run A s0 ws).1 →
      fd ≠ s0.server_fd ∧ ∃ w ∈ ws, ∃ r ∈ w.events, r.ev.fd = fd) ∧
    (∀ (pre post : List Action) (ep fd : Int) (ev : EpollEvent) (ret : Int),
      (Server.run A s0 ws).1 = pre ++ .epoll_ctl_add ep fd ev ret :: post →
      ∃ (pre0 : List Action) (sfd : Int) (m1 m2 : String),
        pre = pre0 ++ [.accept sfd fd, .cout m1, .log .INFO m2]) := by
  simp only [Kernel.admitsAll_append, Bool.and_eq_true] at hadm
  have h0 := ctor_KInv A port cenv t0 s0 hctor hadm.1
  have h1 := run_KInv A ws s0 (Kernel.empty.run t0) h0 hadm.2
  rw [← Kernel.run_append] at h1
  refine ⟨h1.1, h1.2.1, ?_, ?_, run_addsFollowAccept A ws s0⟩
  · intro ep fd hm
    exact run_teardownOf A ws s0 _ fd hm rfl
  · intro fd hm
    exact run_teardownOf A ws s0 _ fd hm rfl

/-- C9 at a concrete input: start-up on descriptors 3 and 4, then three passes: a
connection is accepted as descriptor 5, sends a request, and closes. -/
theorem C9_interest_list_invariant_witness :
    (3, EPOLLIN ||| EPOLLET) ∈
      (Kernel.empty.run ((Server.ctor demoApp PORT ctorOk).1 ++
        (Server.run demoApp demoServer
          [ { num_ready := 1, events := [ready 3 (acceptEnv 5)] },
            { num_ready := 1, events := [ready 5 (dataEnv [65])] },
            { num_ready := 1, events := [ready 5 (dataEnv [])] } ]).1)).interest :=
  (C9_interest_list_invariant demoApp PORT ctorOk (Server.ctor demoApp PORT ctorOk).1
    demoServer
    [ { num_ready := 1, events := [ready 3 (acceptEnv 5)] },
      { num_ready := 1, events := [ready 5 (dataEnv [65])] },
      { num_ready := 1, events := [ready 5 (dataEnv [])] } ]
    rfl (by decide)).1

end DistributedKV
